import Mathlib

/-!
Verification development for the vmmap-visualizer repository.

The Zig parser (`src/VmmapVisualizerCollector/src/parser.zig`), the collector
lifecycle (`src/collector/src/collector.zig`) and the TypeScript timeline fold
(`Timeline.tsx`) are shallowly embedded below.  Byte slices are modelled as
`List Char`; `u64` arithmetic is `Nat` with explicit `< 2^64` bounds where the
Zig code can overflow.  Zig error returns are modelled by `Option`/dedicated
result types; Zig safety panics (`@intFromFloat` out of range, `*` overflow,
slice bound violations) are a distinct `abort` outcome, since they terminate
the process instead of being caught by `catch continue`.

The `f64` arithmetic in `parseSize` is modelled exactly: a decimal literal is
kept as an integer numerator over a power-of-ten denominator and the final
`@intFromFloat` is truncation toward zero.  Because the unit multiplier is a
power of two and the decimal literals appearing in the theorems below are
short, the IEEE-754 double rounding of the source is value-equal to the exact
rational semantics at every input mentioned in a theorem (checked by hand for
`10.7`: the nearest double is 6023564501608038 / 2^49 and scaling by 2^20 is
exact, so both semantics truncate to 11219763).
-/

/-- Convert a string literal to the character list the embedding works on. -/
def chars (s : String) : List Char := s.data

/-- Model of `std.mem.startsWith(u8, hay, needle)`. -/
def listStartsWith (needle hay : List Char) : Bool :=
  match needle, hay with
  | [], _ => true
  | _ :: _, [] => false
  | n :: ns, h :: hs => n == h && listStartsWith ns hs

/-- Model of `std.mem.indexOf` for a single-byte needle. -/
def indexOfChar (c : Char) : List Char → Option Nat
  | [] => none
  | x :: xs => if x == c then some 0 else (indexOfChar c xs).map (· + 1)

/-- Model of `std.mem.indexOfAny`. -/
def indexOfAnyOf (set : List Char) : List Char → Option Nat
  | [] => none
  | x :: xs => if set.contains x then some 0 else (indexOfAnyOf set xs).map (· + 1)

/-- Model of `std.mem.indexOf` for a multi-byte needle: index of the first
occurrence of `needle` in the list. -/
def indexOfSeq (needle : List Char) : List Char → Option Nat
  | [] => if needle.isEmpty then some 0 else none
  | x :: xs =>
    if listStartsWith needle (x :: xs) then some 0
    else (indexOfSeq needle xs).map (· + 1)

/-- Model of `std.mem.splitScalar`: split at every separator, keeping empty
pieces. -/
def splitOnChar (sep : Char) : List Char → List (List Char)
  | [] => [[]]
  | c :: cs =>
    match splitOnChar sep cs with
    | [] => [[]]
    | h :: t => if c == sep then [] :: h :: t else (c :: h) :: t

/-- Model of `std.mem.trim`: drop characters of `set` from both ends. -/
def trimBy (set : List Char) (l : List Char) : List Char :=
  ((l.dropWhile set.contains).reverse.dropWhile set.contains).reverse

/-- Model of `std.mem.trim(u8, x, " ")` as used throughout the parser. -/
def trimSpaces (l : List Char) : List Char := trimBy [' '] l

/-- Model of `std.mem.trim(u8, x, " \t")` as used by `parseDetail`. -/
def trimWhite (l : List Char) : List Char := trimBy [' ', '\t'] l

/-- Model of `isHexDigit` from parser.zig. -/
def isHexDigit (c : Char) : Bool :=
  ('0' ≤ c && c ≤ '9') || ('a' ≤ c && c ≤ 'f') || ('A' ≤ c && c ≤ 'F')

/-- Drop the leading maximal run of hex digits (the inner `while` loops of
`findAddressStart` and `containsHexRange`). -/
def dropHexRun : List Char → List Char
  | [] => []
  | c :: cs => if isHexDigit c then dropHexRun cs else c :: cs

/-- Does an address-range anchor start at the head of this suffix: a nonempty
hex-digit run immediately followed by `-` immediately followed by a hex
digit?  This is the success condition of one iteration of the scans in
`findAddressStart` and `containsHexRange` (their inner logic is identical). -/
def anchorHere (s : List Char) : Bool :=
  match s with
  | [] => false
  | c :: _ =>
    isHexDigit c &&
      (match dropHexRun s with
       | '-' :: d :: _ => isHexDigit d
       | _ => false)

/-- The index scan of `findAddressStart`, position by position. -/
def findAddrAux : List Char → Nat → Option Nat
  | [], _ => none
  | c :: cs, i => if anchorHere (c :: cs) then some i else findAddrAux cs (i + 1)

/-- Model of `findAddressStart` from parser.zig. -/
def findAddressStart (line : List Char) : Option Nat := findAddrAux line 0

/-- Model of `containsHexRange` from parser.zig. -/
def containsHexRange : List Char → Bool
  | [] => false
  | c :: cs => anchorHere (c :: cs) || containsHexRange cs

/-- Model of `isRegionLine` from parser.zig. -/
def isRegionLine (line : List Char) : Bool :=
  let trimmed := trimSpaces line
  if trimmed.isEmpty then false
  else if listStartsWith (chars "==") trimmed then false
  else if listStartsWith (chars "REGION TYPE") trimmed then false
  else if listStartsWith (chars "---") trimmed then false
  else (indexOfChar '-' line).isSome && containsHexRange line

/-- Model of `std.fmt.charToDigit`. -/
def charToDigit (c : Char) (base : Nat) : Option Nat :=
  let v : Option Nat :=
    if '0' ≤ c && c ≤ '9' then some (c.toNat - 48)
    else if 'a' ≤ c && c ≤ 'z' then some (c.toNat - 97 + 10)
    else if 'A' ≤ c && c ≤ 'Z' then some (c.toNat - 65 + 10)
    else none
  match v with
  | some d => if d < base then some d else none
  | none => none

/-- Digit-accumulation loop of `std.fmt.parseInt` for `u64`: underscores
between digits are skipped, any other non-digit is an error, and the
accumulator erroring out of `u64` range is `error.Overflow` (an error return,
not a panic). -/
def parseIntLoop (base : Nat) : List Char → Nat → Option Nat
  | [], acc => some acc
  | c :: cs, acc =>
    if c == '_' then parseIntLoop base cs acc
    else
      match charToDigit c base with
      | none => none
      | some d =>
        let acc' := acc * base + d
        if acc' < 2 ^ 64 then parseIntLoop base cs acc' else none

/-- Unsigned digit-string parse of `std.fmt.parseInt(u64, s, base)` after the
sign has been handled: empty input and leading or trailing `_` are
`error.InvalidCharacter`. -/
def parseIntCore (base : Nat) (l : List Char) : Option Nat :=
  match l with
  | [] => none
  | _ =>
    if l.head? == some '_' || l.getLast? == some '_' then none
    else parseIntLoop base l 0

/-- Model of `std.fmt.parseInt(u64, s, base)`.  A leading `+` is accepted; a
leading `-` on the unsigned type only succeeds when every digit is zero
(`0 - d` underflows otherwise). -/
def parseIntU64 (base : Nat) (l : List Char) : Option Nat :=
  match l with
  | [] => none
  | '+' :: rest => parseIntCore base rest
  | '-' :: rest =>
    match parseIntCore base rest with
    | some 0 => some 0
    | _ => none
  | _ => parseIntCore base l

/-- Value of a list of decimal digit characters (used by the exact model of
`std.fmt.parseFloat`). -/
def natOfDigits (l : List Char) : Nat :=
  l.foldl (fun acc c => acc * 10 + (c.toNat - 48)) 0

/-- Unsigned part of the decimal-literal model of `std.fmt.parseFloat`:
`intpart.fracpart` with at least one digit overall, returned exactly as
(numerator, power-of-ten denominator). -/
def parseDecimalCore (l : List Char) : Option (Nat × Nat) :=
  match splitOnChar '.' l with
  | [b, a] =>
    if (b ++ a).all (·.isDigit) && !(b ++ a).isEmpty then
      some (natOfDigits (b ++ a), 10 ^ a.length)
    else none
  | _ => none

/-- Exact-rational model of `std.fmt.parseFloat(f64, s)` on decimal literals
containing a `.` (the only strings `parseSize` sends there): an optional sign
followed by digits around one dot.  Exponent and underscore forms are not
modelled; no theorem below mentions such a token. -/
def parseDecimal (l : List Char) : Option (Int × Nat) :=
  match l with
  | '-' :: rest => (parseDecimalCore rest).map fun p => (-(p.1 : Int), p.2)
  | '+' :: rest => (parseDecimalCore rest).map fun p => ((p.1 : Int), p.2)
  | _ => (parseDecimalCore l).map fun p => ((p.1 : Int), p.2)

/-- Outcome of `parseSize`: a value, a caught Zig error (`error.InvalidSize`),
or a safety panic that kills the process (`@intFromFloat` out of `u64` range
or `u64` multiplication overflow). -/
inductive SizeRes where
  | ok (n : Nat)
  | err
  | abort
deriving DecidableEq

/-- Model of `parseSize` from parser.zig.  The `K`/`M`/`G` suffix is stripped
(case-sensitively) and multiplies by 1024^n; a token containing `.` goes
through the float path whose product is truncated toward zero by
`@intFromFloat`; otherwise `parseInt(u64, _, 10)` scaled by the multiplier.
`@intFromFloat` with a negative integer part or a value at or above `2^64`,
and `value * multiplier` overflowing `u64`, are safety panics (`abort`). -/
def parseSize (size : List Char) : SizeRes :=
  match size.getLast? with
  | none => .ok 0
  | some c =>
    let mult : Nat :=
      if c == 'K' then 1024
      else if c == 'M' then 1024 * 1024
      else if c == 'G' then 1024 * 1024 * 1024
      else 1
    let numStr : List Char :=
      if c == 'K' || c == 'M' || c == 'G' then size.dropLast else size
    if numStr.any (· == '.') then
      match parseDecimal numStr with
      | none => .err
      | some (num, den) =>
        if num < 0 then
          if ((-num).toNat * mult) / den = 0 then .ok 0 else .abort
        else
          let t := (num.toNat * mult) / den
          if t < 2 ^ 64 then .ok t else .abort
    else
      match parseIntU64 10 numStr with
      | none => .err
      | some v => if v * mult < 2 ^ 64 then .ok (v * mult) else .abort

/-- The rwx protection bits on a memory region (types.zig `Permissions`). -/
structure Permissions where
  read : Bool
  write : Bool
  execute : Bool
deriving DecidableEq

/-- Model of `parsePerm` from parser.zig. -/
def parsePerm (c0 c1 c2 : Char) : Permissions :=
  ⟨c0 == 'r', c1 == 'w', c2 == 'x'⟩

/-- The scan loop of `parsePermissions`: at each position check whether the
character three ahead is `/` and at least seven characters remain; the first
hit yields the two triples, otherwise both default to all-denied. -/
def permSearch : List Char → Permissions × Permissions
  | c0 :: c1 :: c2 :: c3 :: c4 :: c5 :: c6 :: rest =>
    if c3 == '/' then (parsePerm c0 c1 c2, parsePerm c4 c5 c6)
    else permSearch (c1 :: c2 :: c3 :: c4 :: c5 :: c6 :: rest)
  | _ => (⟨false, false, false⟩, ⟨false, false, false⟩)

/-- Model of `parsePermissions` from parser.zig. -/
def parsePermissions (rest : List Char) : Permissions × Permissions :=
  permSearch (trimSpaces rest)

/-- How a memory region is shared between processes (types.zig
`SharingMode`). -/
inductive SharingMode where
  | COW
  | PRV
  | SHM
  | NUL
  | ALI
  | S_A
deriving DecidableEq

/-- The sharing-mode markers, in the order both `parseSharingMode` and
`parseDetail` test them. -/
def smMarkers : List (List Char) :=
  [chars "SM=COW", chars "SM=PRV", chars "SM=SHM",
   chars "SM=NUL", chars "SM=ALI", chars "SM=S/A"]

/-- Model of `parseSharingMode` from parser.zig: the first marker (in fixed
list order) that occurs anywhere in the text wins; absence defaults to
`PRV`. -/
def parseSharingMode (rest : List Char) : SharingMode :=
  if (indexOfSeq (chars "SM=COW") rest).isSome then .COW
  else if (indexOfSeq (chars "SM=PRV") rest).isSome then .PRV
  else if (indexOfSeq (chars "SM=SHM") rest).isSome then .SHM
  else if (indexOfSeq (chars "SM=NUL") rest).isSome then .NUL
  else if (indexOfSeq (chars "SM=ALI") rest).isSome then .ALI
  else if (indexOfSeq (chars "SM=S/A") rest).isSome then .S_A
  else .PRV

/-- The marker loop of `parseDetail`: for each marker in order, if it occurs
and the trimmed text after its first occurrence is nonempty, that text is the
detail; otherwise try the next marker. -/
def detailLoop (rest : List Char) : List (List Char) → Option (List Char)
  | [] => none
  | m :: ms =>
    match indexOfSeq m rest with
    | some pos =>
      let t := trimWhite (rest.drop (pos + m.length))
      if t.isEmpty then detailLoop rest ms else some t
    | none => detailLoop rest ms

/-- Model of `parseDetail` from parser.zig. -/
def parseDetail (rest : List Char) : Option (List Char) :=
  detailLoop rest smMarkers

/-- The four byte counts of the bracket section (parser.zig `Sizes`). -/
structure Sizes where
  virtual : Nat
  resident : Nat
  dirty : Nat
  swap : Nat
deriving DecidableEq

/-- Outcome of `parseSizes`: the sizes, a caught error, or a safety panic
propagated from `parseSize`. -/
inductive SizesRes where
  | ok (s : Sizes)
  | err
  | abort
deriving DecidableEq

/-- Model of `std.mem.tokenizeScalar(u8, content, ' ')`: the nonempty pieces
between spaces. -/
def tokenizeSpaces (content : List Char) : List (List Char) :=
  (splitOnChar ' ' content).filter (fun t => !t.isEmpty)

/-- Model of `parseSizes` from parser.zig: four mandatory whitespace-separated
tokens (fewer is `error.InvalidSize` before any token is parsed), then the
four `parseSize` calls in field order. -/
def parseSizes (content : List Char) : SizesRes :=
  match tokenizeSpaces content with
  | v :: r :: d :: s :: _ =>
    match parseSize v with
    | .err => .err
    | .abort => .abort
    | .ok vv =>
      match parseSize r with
      | .err => .err
      | .abort => .abort
      | .ok rv =>
        match parseSize d with
        | .err => .err
        | .abort => .abort
        | .ok dv =>
          match parseSize s with
          | .err => .err
          | .abort => .abort
          | .ok sv => .ok ⟨vv, rv, dv, sv⟩
  | _ => .err

/-- A single contiguous virtual memory region from one vmmap snapshot
(types.zig `Region`). -/
structure Region where
  region_type : List Char
  start_addr : Nat
  end_addr : Nat
  virtual_size : Nat
  resident_size : Nat
  dirty_size : Nat
  swap_size : Nat
  current_perm : Permissions
  max_perm : Permissions
  sharing_mode : SharingMode
  detail : Option (List Char)
deriving DecidableEq

/-- Outcome of `parseRegionLine`: a region, a caught Zig error (the
`catch continue` in `parse` skips the line), or a safety panic (slice bounds
or `parseSize` panics) that kills the process. -/
inductive LineRes where
  | ok (r : Region)
  | err
  | abort
deriving DecidableEq

/-- Model of `parseRegionLine` from parser.zig, step for step: anchor, region
type, hex addresses around the first `-`, bracket section (slicing with the
closing bracket before the opening one is a safety panic), sizes,
permissions, sharing mode, detail. -/
def parseRegionLine (line : List Char) : LineRes :=
  match findAddressStart line with
  | none => .err
  | some addr_start =>
    let rest := line.drop addr_start
    match indexOfChar '-' rest with
    | none => .err
    | some dash_pos =>
      match parseIntU64 16 (rest.take dash_pos) with
      | none => .err
      | some start_addr =>
        let rest2 := rest.drop (dash_pos + 1)
        match indexOfAnyOf [' ', '['] rest2 with
        | none => .err
        | some end_pos =>
          match parseIntU64 16 (rest2.take end_pos) with
          | none => .err
          | some end_addr =>
            match indexOfChar '[' rest2, indexOfChar ']' rest2 with
            | some bs, some be =>
              if be < bs + 1 then .abort
              else
                match parseSizes ((rest2.drop (bs + 1)).take (be - (bs + 1))) with
                | .abort => .abort
                | .err => .err
                | .ok sizes =>
                  let rest3 := rest2.drop (be + 1)
                  let perms := parsePermissions rest3
                  .ok
                    { region_type := trimSpaces (line.take addr_start)
                      start_addr := start_addr
                      end_addr := end_addr
                      virtual_size := sizes.virtual
                      resident_size := sizes.resident
                      dirty_size := sizes.dirty
                      swap_size := sizes.swap
                      current_perm := perms.1
                      max_perm := perms.2
                      sharing_mode := parseSharingMode rest3
                      detail := parseDetail rest3 }
            | _, _ => .err

/-- The text after the closing bracket of a region line, exactly as
`parseRegionLine` computes it before handing it to `parsePermissions`,
`parseSharingMode` and `parseDetail` (a projection of the same slicing
steps). -/
def restAfterBracket (line : List Char) : Option (List Char) :=
  match findAddressStart line with
  | none => none
  | some addr_start =>
    let rest := line.drop addr_start
    match indexOfChar '-' rest with
    | none => none
    | some dash_pos =>
      let rest2 := rest.drop (dash_pos + 1)
      match indexOfChar ']' rest2 with
      | none => none
      | some be => some (rest2.drop (be + 1))

/-- The line loop of `parse`: candidate lines are parsed, caught errors skip
the line, and a safety panic anywhere aborts the whole run (`none`). -/
def parseLines : List (List Char) → Option (List Region)
  | [] => some []
  | l :: ls =>
    if isRegionLine l then
      match parseRegionLine l with
      | .ok r => (parseLines ls).map (r :: ·)
      | .err => parseLines ls
      | .abort => none
    else parseLines ls

/-- Model of `parse` from parser.zig: split the raw text on newlines and run
the line loop.  `none` models the process dying on a safety panic; `some rs`
is the returned slice of regions. -/
def parse (output : List Char) : Option (List Region) :=
  parseLines (splitOnChar '\n' output)

/-- Observable lifecycle state of a `Collector` (collector.zig): the atomic
`running` flag and whether a collection thread handle exists. -/
structure CollectorState where
  running : Bool
  thread : Option Unit
deriving DecidableEq

/-- Model of `Collector.init`: no thread, `running` false. -/
def Collector.init : CollectorState := ⟨false, none⟩

/-- Whether `std.Thread.spawn` succeeds in this call to `start`. -/
inductive SpawnOutcome where
  | ok
  | fail
deriving DecidableEq

/-- How `start` returns: a normal (void) return or the propagated
`Thread.spawn` error. -/
inductive StartReturn where
  | returned
  | spawnError
deriving DecidableEq

/-- Model of `Collector.start`: if already running return silently; otherwise
store `running := true` first and then try to spawn the thread, propagating a
spawn failure to the caller with no rollback of the flag. -/
def Collector.start (s : CollectorState) (spawn : SpawnOutcome) :
    CollectorState × StartReturn :=
  if s.running then (s, .returned)
  else
    let s1 : CollectorState := { s with running := true }
    match spawn with
    | .ok => ({ s1 with thread := some () }, .returned)
    | .fail => (s1, .spawnError)

/-- All regions captured from a single vmmap invocation (types.zig
`Snapshot`, minus the allocator handle). -/
structure Snapshot where
  timestamp_ms : Int
  regions : List Region
deriving DecidableEq

/-- One iteration of `collectionLoop` as seen from `captureSnapshot`: either
some step before the timestamp fails (spawn error, missing stdout, read
failure, non-zero exit — all caught and logged), or the cycle reaches
`std.time.milliTimestamp()` with reading `t` and vmmap output `out`. -/
inductive CycleRes where
  | fail
  | ok (t : Int) (out : List Char)
deriving DecidableEq

/-- The clock reading of a cycle, when the cycle reached the clock. -/
def cycleTime : CycleRes → Option Int
  | .fail => none
  | .ok t _ => some t

/-- The snapshots appended by running `collectionLoop` over the given cycle
outcomes, in order: failed cycles append nothing, successful cycles append a
snapshot stamped with that cycle's clock reading, and a parser safety panic
kills the process so no later snapshot is ever produced. -/
def collectRun : List CycleRes → List Snapshot
  | [] => []
  | .fail :: rest => collectRun rest
  | .ok t out :: rest =>
    match parse out with
    | none => []
    | some rs => ⟨t, rs⟩ :: collectRun rest

/-- Region category of the frontend (regionColors.ts `Category`). -/
inductive Category where
  | code
  | data
  | heap
  | stack
  | mapped
  | shared
  | system
deriving DecidableEq

/-- Model of `categoryForType` from regionColors.ts: exact table first, then
the three ordered prefix rules, else `system`. -/
def categoryForType (regionType : List Char) : Category :=
  if regionType == chars "__TEXT" then .code
  else if regionType == chars "__LINKEDIT" then .code
  else if regionType == chars "__DATA" then .data
  else if regionType == chars "__DATA_CONST" then .data
  else if regionType == chars "__DATA_DIRTY" then .data
  else if regionType == chars "Stack" then .stack
  else if regionType == chars "STACK GUARD" then .stack
  else if regionType == chars "mapped file" then .mapped
  else if regionType == chars "shared memory" then .shared
  else if listStartsWith (chars "MALLOC") regionType then .heap
  else if listStartsWith (chars "__OBJC") regionType then .data
  else if listStartsWith (chars "__AUTH") regionType then .data
  else .system

/-- A region as the frontend receives it (types.ts `Region`); the `end` field
is written `end_` because `end` is a Lean keyword. -/
structure RegionTS where
  type : List Char
  start : Nat
  end_ : Nat
  vsize : Nat
deriving DecidableEq

/-- A snapshot as the frontend receives it (types.ts `Snapshot`). -/
structure SnapshotTS where
  timestamp_ms : Int
  regions : List RegionTS
deriving DecidableEq

/-- Decimal digit to character, for the model of JavaScript number-to-string
inside a template literal. -/
def digitChar : Nat → Char
  | 0 => '0'
  | 1 => '1'
  | 2 => '2'
  | 3 => '3'
  | 4 => '4'
  | 5 => '5'
  | 6 => '6'
  | 7 => '7'
  | 8 => '8'
  | 9 => '9'
  | _ => '*'

/-- Fuelled digit expansion (the fuel argument only serves Lean's structural
recursion; `natDecimal` always supplies enough). -/
def natDecimalAux : Nat → Nat → List Char
  | 0, _ => []
  | fuel + 1, n =>
    if n < 10 then [digitChar n]
    else natDecimalAux fuel (n / 10) ++ [digitChar (n % 10)]

/-- Decimal rendering of a natural number, modelling `${n}` for the
non-negative integers that reach the Timeline. -/
def natDecimal (n : Nat) : List Char := natDecimalAux (n + 1) n

/-- Model of the Map key built in Timeline.tsx:
the template literal of type, start and end separated by `|`. -/
def regionKey (r : RegionTS) : List Char :=
  r.type ++ '|' :: natDecimal r.start ++ '|' :: natDecimal r.end_

/-- A tracked region of the Timeline fold (Timeline.tsx `TrackedRegion`). -/
structure TrackedRegion where
  key : List Char
  type : List Char
  start : Nat
  end_ : Nat
  vsize : Nat
  category : Category
  firstSnapshot : Nat
  lastSnapshot : Nat
deriving DecidableEq

/-- The entry `map.set` stores for a region first seen in snapshot `i`. -/
def mkTracked (r : RegionTS) (i : Nat) : TrackedRegion :=
  ⟨regionKey r, r.type, r.start, r.end_, r.vsize, categoryForType r.type, i, i⟩

/-- Whether the insertion-ordered map already holds the key (`map.get`
succeeding in Timeline.tsx). -/
def hasKey (m : List TrackedRegion) (k : List Char) : Bool :=
  m.any fun t => t.key == k

/-- The mutation `existing.lastSnapshot = i` on the entry with the given
key. -/
def updateLast (k : List Char) (i : Nat) : List TrackedRegion → List TrackedRegion
  | [] => []
  | t :: ts =>
    if t.key == k then { t with lastSnapshot := i } :: ts
    else t :: updateLast k i ts

/-- One region of snapshot `i` folded into the insertion-ordered map
(the body of the inner `for` loop in Timeline.tsx). -/
def trackedInsert (i : Nat) (m : List TrackedRegion) (r : RegionTS) :
    List TrackedRegion :=
  if hasKey m (regionKey r) then updateLast (regionKey r) i m
  else m ++ [mkTracked r i]

/-- The tracked-region fold of Timeline.tsx over an ordered snapshot
sequence (the `useMemo` double loop, before the final display sort). -/
def tracked (snapshots : List SnapshotTS) : List TrackedRegion :=
  snapshots.enum.foldl (fun m p => p.2.regions.foldl (trackedInsert p.1) m) []

/-- Specification-level predicate: `needle` appears (contiguously) somewhere
in `l`. -/
def appearsIn (needle l : List Char) : Prop :=
  ∃ a b, l = a ++ needle ++ b

/-- The all-denied permission triple (the parser's default). -/
def noPerm : Permissions := ⟨false, false, false⟩

/-- A line whose first bracket token is the negative decimal `-1.5`
(concrete input for the safety-panic finding of C1). -/
def c1Line : List Char := chars "a 1-2 [-1.5 0K 0K 0K]"

/-- The scenario line of the spec (P-scenario, claim C2). -/
def c2Line : List Char :=
  chars "__TEXT  100484000-100f3c000    [ 10.7M  7904K     0K     0K] r-x/r-x SM=COW   /bin/app"

/-- The Region the code actually produces for `c2Line`. -/
def c2Region : Region :=
  { region_type := chars "__TEXT"
    start_addr := 0x100484000
    end_addr := 0x100f3c000
    virtual_size := 11219763
    resident_size := 8093696
    dirty_size := 0
    swap_size := 0
    current_perm := ⟨true, false, true⟩
    max_perm := ⟨true, false, true⟩
    sharing_mode := .COW
    detail := some (chars "/bin/app") }

/-- The Region claim C2 asserts for `c2Line` (virtual_size 11216076; all
other fields as in `c2Region`). -/
def c2ClaimRegion : Region :=
  { c2Region with virtual_size := 11216076 }

/-- A region line with a descending address range (concrete input for C3). -/
def c3LineDesc : List Char := chars "a 2-1 [0K 0K 0K 0K]"

/-- The Region the code produces for `c3LineDesc`: start above end. -/
def c3RegionDesc : Region :=
  { region_type := chars "a", start_addr := 2, end_addr := 1,
    virtual_size := 0, resident_size := 0, dirty_size := 0, swap_size := 0,
    current_perm := noPerm, max_perm := noPerm,
    sharing_mode := .PRV, detail := none }

/-- An ascending-range line used by the amended C3 statement. -/
def c3LineAsc : List Char := chars "b 3-7 [0K 0K 0K 0K]"

/-- The Region the code produces for `c3LineAsc`. -/
def c3RegionAsc : Region :=
  { region_type := chars "b", start_addr := 3, end_addr := 7,
    virtual_size := 0, resident_size := 0, dirty_size := 0, swap_size := 0,
    current_perm := noPerm, max_perm := noPerm,
    sharing_mode := .PRV, detail := none }

/-- Two-line input whose first line has a digit-free first bracket token
(claim C6: that line is discarded and parsing continues). -/
def c6GoodText : List Char := chars "a 1-2 [x 0K 0K 0K]\nc 5-6 [0K 0K 0K 0K]"

/-- Two-line input whose first line has a digit-free bracket token after a
negative decimal one (claim C6: the code panics instead of discarding). -/
def c6BadText : List Char := chars "a 1-2 [-1.5 x 0K 0K]\nc 5-6 [0K 0K 0K 0K]"

/-- The Region of the second line of `c6GoodText` and `c6BadText`. -/
def c6Region : Region :=
  { region_type := chars "c", start_addr := 5, end_addr := 6,
    virtual_size := 0, resident_size := 0, dirty_size := 0, swap_size := 0,
    current_perm := noPerm, max_perm := noPerm,
    sharing_mode := .PRV, detail := none }

/-- The multi-word-category line of P5 (claim C7), with a valid remainder. -/
def c7Line : List Char := chars "MALLOC guard page   100000-101000   [ 4K 0K 0K 0K]"

/-- The Region the code produces for `c7Line`. -/
def c7Region : Region :=
  { region_type := chars "MALLOC guard page", start_addr := 0x100000,
    end_addr := 0x101000,
    virtual_size := 4096, resident_size := 0, dirty_size := 0, swap_size := 0,
    current_perm := noPerm, max_perm := noPerm,
    sharing_mode := .PRV, detail := none }

/-- A region line with trailing free text but no sharing-mode marker
(witness input for C10). -/
def c10Line : List Char := chars "a 1-2 [0K 0K 0K 0K] hello world"

/-- The Region the code produces for `c10Line`. -/
def c10Region : Region :=
  { region_type := chars "a", start_addr := 1, end_addr := 2,
    virtual_size := 0, resident_size := 0, dirty_size := 0, swap_size := 0,
    current_perm := noPerm, max_perm := noPerm,
    sharing_mode := .PRV, detail := none }

/-- Concrete cycle outcomes for the C8 witness: two equal clock readings, a
failed cycle, then a later reading. -/
def c8Cycles : List CycleRes :=
  [.ok 5 c3LineAsc, .ok 5 [], .fail, .ok 7 []]

/-- First frontend region of the C9 witness. -/
def c9R1 : RegionTS := ⟨chars "__TEXT", 4096, 8192, 4096⟩

/-- Second frontend region of the C9 witness: same type and start, larger
end. -/
def c9R2 : RegionTS := ⟨chars "__TEXT", 4096, 12288, 8192⟩

/-- Third frontend region of the C9 witness: same type and end as `c9R1`,
different start. -/
def c9R3 : RegionTS := ⟨chars "__TEXT", 16384, 8192, 4096⟩

/-- Fuel irrelevance for the decimal expansion: any sufficient fuel gives the
same digits. -/
theorem natDecimalAux_fuel :
    ∀ f1 f2 n : Nat, n < f1 → n < f2 → natDecimalAux f1 n = natDecimalAux f2 n := by
  intro f1
  induction f1 with
  | zero => intro f2 n h1 _; omega
  | succ f ih =>
    intro f2 n h1 h2
    cases f2 with
    | zero => omega
    | succ g =>
      simp only [natDecimalAux]
      by_cases hn : n < 10
      · simp [hn]
      · simp only [if_neg hn]
        have hd : n / 10 < n := Nat.div_lt_self (by omega) (by omega)
        rw [ih g (n / 10) (by omega) (by omega)]

/-- Recurrence of `natDecimal` with the fuel hidden. -/
theorem natDecimal_eq (n : Nat) :
    natDecimal n =
      if n < 10 then [digitChar n]
      else natDecimal (n / 10) ++ [digitChar (n % 10)] := by
  show natDecimalAux (n + 1) n = _
  rw [natDecimalAux]
  by_cases hn : n < 10
  · simp [hn]
  · simp only [if_neg hn]
    have hd : n / 10 < n := Nat.div_lt_self (by omega) (by omega)
    rw [natDecimalAux_fuel n (n / 10 + 1) (n / 10) (by omega) (by omega)]
    rfl

/-- A decimal rendering is never the empty string. -/
theorem natDecimal_ne_nil (n : Nat) : natDecimal n ≠ [] := by
  rw [natDecimal_eq]
  split <;> simp

/-- The ten digit characters are pairwise distinct. -/
theorem digitChar_inj (a b : Nat) (ha : a < 10) (hb : b < 10)
    (h : digitChar a = digitChar b) : a = b := by
  have key : ∀ x y : Fin 10, digitChar x.val = digitChar y.val → x = y := by decide
  exact congrArg Fin.val (key ⟨a, ha⟩ ⟨b, hb⟩ h)

/-- Decimal rendering is injective, so the Timeline key determines the end
address once type and start agree. -/
theorem natDecimal_injective : ∀ m n : Nat, natDecimal m = natDecimal n → m = n := by
  intro m
  induction m using Nat.strong_induction_on with
  | _ m ih =>
    intro n h
    rw [natDecimal_eq m, natDecimal_eq n] at h
    by_cases hm : m < 10 <;> by_cases hn : n < 10
    · simp only [if_pos hm, if_pos hn, List.cons.injEq, and_true] at h
      exact digitChar_inj m n hm hn h
    · simp only [if_pos hm, if_neg hn] at h
      have hlen := congrArg List.length h
      simp only [List.length_append, List.length_cons, List.length_nil] at hlen
      exact absurd (List.length_eq_zero.mp (by omega)) (natDecimal_ne_nil (n / 10))
    · simp only [if_neg hm, if_pos hn] at h
      have hlen := congrArg List.length h
      simp only [List.length_append, List.length_cons, List.length_nil] at hlen
      exact absurd (List.length_eq_zero.mp (by omega)) (natDecimal_ne_nil (m / 10))
    · simp only [if_neg hm, if_neg hn] at h
      obtain ⟨h1, h2⟩ := List.append_inj' h (by simp)
      have hq : m / 10 = n / 10 :=
        ih (m / 10) (Nat.div_lt_self (by omega) (by omega)) (n / 10) h1
      have hr : m % 10 = n % 10 :=
        digitChar_inj _ _ (Nat.mod_lt _ (by omega)) (Nat.mod_lt _ (by omega))
          (by simpa using h2)
      omega

/-- Specification of the `findAddressStart` scan: a returned index is at or
after the start offset, an anchor starts there, and no earlier scanned
position carries an anchor. -/
theorem findAddrAux_spec :
    ∀ (l : List Char) (i p : Nat), findAddrAux l i = some p →
      i ≤ p ∧ anchorHere (l.drop (p - i)) = true ∧
        ∀ q, i ≤ q → q < p → anchorHere (l.drop (q - i)) = false := by
  intro l
  induction l with
  | nil => intro i p h; simp [findAddrAux] at h
  | cons c cs ih =>
    intro i p h
    rw [findAddrAux] at h
    by_cases ha : anchorHere (c :: cs)
    · rw [if_pos ha] at h
      have hip : i = p := by simpa using h
      subst hip
      refine ⟨Nat.le_refl _, by simpa [Nat.sub_self] using ha, ?_⟩
      intro q hq1 hq2
      omega
    · rw [if_neg ha] at h
      obtain ⟨h1, h2, h3⟩ := ih (i + 1) p h
      refine ⟨by omega, ?_, ?_⟩
      · have hpi : p - i = (p - (i + 1)) + 1 := by omega
        rw [hpi, List.drop_succ_cons]
        exact h2
      · intro q hq1 hq2
        rcases Nat.eq_or_lt_of_le hq1 with rfl | hlt
        · simpa [Nat.sub_self] using ha
        · have hqi : q - i = (q - (i + 1)) + 1 := by omega
          rw [hqi, List.drop_succ_cons]
          exact h3 q (by omega) hq2

/-- Characterization: `listStartsWith` is exactly "is an initial segment of". -/
theorem listStartsWith_iff (needle hay : List Char) :
    listStartsWith needle hay = true ↔ ∃ b, hay = needle ++ b := by
  induction needle generalizing hay with
  | nil => simp [listStartsWith]
  | cons n ns ih =>
    cases hay with
    | nil => simp [listStartsWith]
    | cons h hs =>
      simp only [listStartsWith, Bool.and_eq_true, beq_iff_eq, ih, List.cons_append,
        List.cons.injEq]
      constructor
      · rintro ⟨rfl, b, rfl⟩
        exact ⟨b, rfl, rfl⟩
      · rintro ⟨b, rfl, rfl⟩
        exact ⟨rfl, b, rfl⟩

/-- Splitting an occurrence in a cons: either it starts at the head or it
lies in the tail. -/
theorem appearsIn_cons (needle : List Char) (x : Char) (xs : List Char) :
    appearsIn needle (x :: xs) ↔
      (∃ b, x :: xs = needle ++ b) ∨ appearsIn needle xs := by
  constructor
  · rintro ⟨a, b, hab⟩
    cases a with
    | nil => exact Or.inl ⟨b, by simpa using hab⟩
    | cons y ys =>
      right
      simp only [List.cons_append, List.cons.injEq] at hab
      exact ⟨ys, b, hab.2⟩
  · rintro (⟨b, hb⟩ | ⟨a, b, hab⟩)
    · exact ⟨[], b, by simpa using hb⟩
    · exact ⟨x :: a, b, by simp [hab]⟩

/-- The substring search of `std.mem.indexOf` fails exactly when the needle
appears nowhere. -/
theorem indexOfSeq_none_iff (needle : List Char) :
    ∀ l : List Char, indexOfSeq needle l = none ↔ ¬ appearsIn needle l := by
  intro l
  induction l with
  | nil =>
    cases needle with
    | nil => simp [indexOfSeq, appearsIn]
    | cons n ns =>
      simp only [indexOfSeq, List.isEmpty_cons, appearsIn]
      constructor
      · rintro - ⟨a, b, hab⟩
        exact absurd (congrArg List.length hab) (by simp; omega)
      · intro _; rfl
  | cons x xs ih =>
    rw [indexOfSeq, appearsIn_cons]
    by_cases hs : listStartsWith needle (x :: xs)
    · rw [if_pos hs]
      obtain ⟨b, hb⟩ := (listStartsWith_iff needle (x :: xs)).mp hs
      simp [hb]
    · rw [if_neg hs]
      have hnb : ¬ ∃ b, x :: xs = needle ++ b := by
        intro hb
        exact hs ((listStartsWith_iff needle (x :: xs)).mpr hb)
      simp [Option.map_eq_none', ih, hnb]

/-- The timestamps appended by the collection loop form a sublist of the
clock readings of the cycles that reached the clock. -/
theorem collectRun_times_sublist (cycles : List CycleRes) :
    ((collectRun cycles).map Snapshot.timestamp_ms).Sublist
      (cycles.filterMap cycleTime) := by
  induction cycles with
  | nil => simp [collectRun]
  | cons c rest ih =>
    cases c with
    | fail => simpa [collectRun, cycleTime] using ih
    | ok t out =>
      simp only [collectRun, List.filterMap_cons, cycleTime]
      cases hp : parse out with
      | none => simp
      | some rs => simpa using List.Sublist.cons₂ t ih


/-- Shape of a successful `parseRegionLine`: the anchor exists, the
post-bracket text is what `restAfterBracket` computes, the region type is the
trimmed text before the anchor, and sharing mode and detail come from that
post-bracket text. -/
theorem parseRegionLine_ok_shape (line : List Char) (r : Region)
    (h : parseRegionLine line = .ok r) :
    ∃ p rest3, findAddressStart line = some p ∧
      restAfterBracket line = some rest3 ∧
      r.region_type = trimSpaces (line.take p) ∧
      r.sharing_mode = parseSharingMode rest3 ∧
      r.detail = parseDetail rest3 := by
  cases hfa : findAddressStart line with
  | none =>
    simp only [parseRegionLine, hfa] at h
    exact LineRes.noConfusion h
  | some a =>
    simp only [parseRegionLine, hfa] at h
    cases hdash : indexOfChar '-' (line.drop a) with
    | none => simp only [hdash] at h; exact LineRes.noConfusion h
    | some dp =>
      simp only [hdash] at h
      cases hstart : parseIntU64 16 ((line.drop a).take dp) with
      | none => simp only [hstart] at h; exact LineRes.noConfusion h
      | some sa =>
        simp only [hstart] at h
        cases hany : indexOfAnyOf [' ', '['] ((line.drop a).drop (dp + 1)) with
        | none => simp only [hany] at h; exact LineRes.noConfusion h
        | some ep =>
          simp only [hany] at h
          cases hend : parseIntU64 16 (((line.drop a).drop (dp + 1)).take ep) with
          | none => simp only [hend] at h; exact LineRes.noConfusion h
          | some ea =>
            simp only [hend] at h
            cases hbs : indexOfChar '[' ((line.drop a).drop (dp + 1)) with
            | none => simp only [hbs] at h; exact LineRes.noConfusion h
            | some bs =>
              simp only [hbs] at h
              cases hbe : indexOfChar ']' ((line.drop a).drop (dp + 1)) with
              | none => simp only [hbe] at h; exact LineRes.noConfusion h
              | some be =>
                simp only [hbe] at h
                by_cases hlt : be < bs + 1
                · simp only [if_pos hlt] at h
                  exact LineRes.noConfusion h
                · simp only [if_neg hlt] at h
                  cases hsz : parseSizes
                      ((((line.drop a).drop (dp + 1)).drop (bs + 1)).take (be - (bs + 1))) with
                  | err => simp only [hsz] at h; exact LineRes.noConfusion h
                  | abort => simp only [hsz] at h; exact LineRes.noConfusion h
                  | ok sizes =>
                    simp only [hsz] at h
                    have hr := LineRes.ok.inj h
                    refine ⟨a, ((line.drop a).drop (dp + 1)).drop (be + 1), rfl, ?_, ?_, ?_, ?_⟩
                    · simp only [restAfterBracket, hfa, hdash, hbe]
                    · rw [← hr]
                    · rw [← hr]
                    · rw [← hr]

/-- When no sharing-mode marker occurs in the text, `parseSharingMode`
defaults to private. -/
theorem parseSharingMode_no_marker (rest : List Char)
    (h : ∀ m ∈ smMarkers, ¬ appearsIn m rest) :
    parseSharingMode rest = .PRV := by
  have h1 : indexOfSeq (chars "SM=COW") rest = none :=
    (indexOfSeq_none_iff _ rest).mpr (h _ (by simp [smMarkers]))
  have h2 : indexOfSeq (chars "SM=PRV") rest = none :=
    (indexOfSeq_none_iff _ rest).mpr (h _ (by simp [smMarkers]))
  have h3 : indexOfSeq (chars "SM=SHM") rest = none :=
    (indexOfSeq_none_iff _ rest).mpr (h _ (by simp [smMarkers]))
  have h4 : indexOfSeq (chars "SM=NUL") rest = none :=
    (indexOfSeq_none_iff _ rest).mpr (h _ (by simp [smMarkers]))
  have h5 : indexOfSeq (chars "SM=ALI") rest = none :=
    (indexOfSeq_none_iff _ rest).mpr (h _ (by simp [smMarkers]))
  have h6 : indexOfSeq (chars "SM=S/A") rest = none :=
    (indexOfSeq_none_iff _ rest).mpr (h _ (by simp [smMarkers]))
  simp [parseSharingMode, h1, h2, h3, h4, h5, h6]

/-- When no sharing-mode marker occurs in the text, `parseDetail` finds no
detail. -/
theorem parseDetail_no_marker (rest : List Char)
    (h : ∀ m ∈ smMarkers, ¬ appearsIn m rest) :
    parseDetail rest = none := by
  have h1 : indexOfSeq (chars "SM=COW") rest = none :=
    (indexOfSeq_none_iff _ rest).mpr (h _ (by simp [smMarkers]))
  have h2 : indexOfSeq (chars "SM=PRV") rest = none :=
    (indexOfSeq_none_iff _ rest).mpr (h _ (by simp [smMarkers]))
  have h3 : indexOfSeq (chars "SM=SHM") rest = none :=
    (indexOfSeq_none_iff _ rest).mpr (h _ (by simp [smMarkers]))
  have h4 : indexOfSeq (chars "SM=NUL") rest = none :=
    (indexOfSeq_none_iff _ rest).mpr (h _ (by simp [smMarkers]))
  have h5 : indexOfSeq (chars "SM=ALI") rest = none :=
    (indexOfSeq_none_iff _ rest).mpr (h _ (by simp [smMarkers]))
  have h6 : indexOfSeq (chars "SM=S/A") rest = none :=
    (indexOfSeq_none_iff _ rest).mpr (h _ (by simp [smMarkers]))
  simp [parseDetail, smMarkers, detailLoop, h1, h2, h3, h4, h5, h6]

/-- A decimal digit character is never the key separator `|`. -/
theorem digitChar_ne_bar (d : Nat) (hd : d < 10) : digitChar d ≠ '|' := by
  have key : ∀ x : Fin 10, digitChar x.val ≠ '|' := by decide
  exact key ⟨d, hd⟩

/-- A decimal rendering never contains the key separator `|`. -/
theorem natDecimal_no_bar : ∀ n : Nat, '|' ∉ natDecimal n := by
  intro n
  induction n using Nat.strong_induction_on with
  | _ n ih =>
    rw [natDecimal_eq]
    by_cases hn : n < 10
    · simp only [if_pos hn, List.mem_singleton]
      intro h
      exact digitChar_ne_bar n hn h.symm
    · simp only [if_neg hn, List.mem_append, List.mem_singleton]
      rintro (h | h)
      · exact ih (n / 10) (Nat.div_lt_self (by omega) (by omega)) h
      · exact digitChar_ne_bar (n % 10) (Nat.mod_lt _ (by omega)) h.symm

/-- Texts followed by a `|` and a tail decompose uniquely when neither text
contains a `|` — the separator marks the boundary. -/
theorem append_bar_inj :
    ∀ (a b x y : List Char), '|' ∉ a → '|' ∉ b →
      a ++ '|' :: x = b ++ '|' :: y → a = b ∧ x = y := by
  intro a
  induction a with
  | nil =>
    intro b x y _ hb h
    cases b with
    | nil => simpa using h
    | cons d b2 =>
      simp only [List.nil_append, List.cons_append, List.cons.injEq] at h
      obtain ⟨h1, -⟩ := h
      rw [← h1] at hb
      exact absurd (List.mem_cons_self _ _) hb
  | cons c a2 ih =>
    intro b x y ha hb h
    cases b with
    | nil =>
      simp only [List.cons_append, List.nil_append, List.cons.injEq] at h
      obtain ⟨h1, -⟩ := h
      rw [h1] at ha
      exact absurd (List.mem_cons_self _ _) ha
    | cons d b2 =>
      simp only [List.cons_append, List.cons.injEq] at h
      obtain ⟨rfl, h2⟩ := h
      obtain ⟨e1, e2⟩ := ih b2 x y (fun hm => ha (List.mem_cons_of_mem _ hm))
        (fun hm => hb (List.mem_cons_of_mem _ hm)) h2
      exact ⟨by rw [e1], e2⟩

/-- The Timeline key determines start and end address once the types agree:
equal keys force equal coordinates. -/
theorem regionKey_inj (r1 r2 : RegionTS) (hty : r1.type = r2.type)
    (h : regionKey r1 = regionKey r2) : r1.start = r2.start ∧ r1.end_ = r2.end_ := by
  rw [regionKey, regionKey, hty] at h
  rw [List.append_assoc, List.append_assoc] at h
  have h1 := List.append_cancel_left h
  simp only [List.cons_append, List.cons.injEq, true_and] at h1
  obtain ⟨e1, e2⟩ := append_bar_inj _ _ _ _ (natDecimal_no_bar _)
    (natDecimal_no_bar _) h1
  exact ⟨natDecimal_injective _ _ e1, natDecimal_injective _ _ e2⟩

/-- A decimal digit is none of the unit suffix characters and not a dot. -/
theorem isDigit_not_special (c : Char) (hc : c.isDigit = true) :
    (c == 'K') = false ∧ (c == 'M') = false ∧ (c == 'G') = false ∧
      (c == '.') = false := by
  refine ⟨?_, ?_, ?_, ?_⟩ <;>
    · rw [beq_eq_false_iff_ne]
      rintro rfl
      exact absurd hc (by decide)

/-- A token of decimal digits contains no dot. -/
theorem digits_no_dot (tok : List Char) (hd : ∀ c ∈ tok, c.isDigit) :
    tok.any (· == '.') = false := by
  rw [List.any_eq_false]
  intro x hx
  simp [(isDigit_not_special x (hd x hx)).2.2.2]

/-- On an all-digit token, a successful `parseSize` is exactly a successful
`parseInt(u64, tok, 10)` (the suffix-free raw-bytes path). -/
theorem parseSize_digits (tok : List Char) (v : Nat) (hne : tok ≠ [])
    (hd : ∀ c ∈ tok, c.isDigit) (h : parseSize tok = .ok v) :
    parseIntU64 10 tok = some v ∧ v < 2 ^ 64 := by
  have hlast : tok.getLast? = some (tok.getLast hne) := List.getLast?_eq_getLast tok hne
  have hcd : (tok.getLast hne).isDigit := hd _ (List.getLast_mem hne)
  obtain ⟨hK, hM, hG, _⟩ := isDigit_not_special _ hcd
  have hdot := digits_no_dot tok hd
  simp only [parseSize, hlast, hK, hM, hG, Bool.or_self, Bool.or_false,
    if_neg, Bool.false_eq_true, if_false, hdot] at h
  cases hpi : parseIntU64 10 tok with
  | none => simp only [hpi] at h; exact SizeRes.noConfusion h
  | some w =>
    simp only [hpi] at h
    by_cases hb : w * 1 < 2 ^ 64
    · rw [if_pos hb] at h
      have hv := SizeRes.ok.inj h
      have hv2 : w = v := by omega
      subst hv2
      exact ⟨rfl, by omega⟩
    · rw [if_neg hb] at h
      exact SizeRes.noConfusion h

/-- Appending a unit suffix to an all-digit token multiplies the parsed value
by the unit, as long as the product still fits in `u64`. -/
theorem parseSize_suffix (tok : List Char) (v : Nat) (suf : Char) (mult : Nat)
    (hd : ∀ c ∈ tok, c.isDigit)
    (hpi : parseIntU64 10 tok = some v)
    (hsuf : (suf = 'K' ∧ mult = 1024) ∨ (suf = 'M' ∧ mult = 1024 * 1024) ∨
      (suf = 'G' ∧ mult = 1024 * 1024 * 1024))
    (hbound : v * mult < 2 ^ 64) :
    parseSize (tok ++ [suf]) = .ok (v * mult) := by
  have hdot := digits_no_dot tok hd
  have hlast : (tok ++ [suf]).getLast? = some suf := List.getLast?_concat tok
  have hdrop : (tok ++ [suf]).dropLast = tok := List.dropLast_concat
  rcases hsuf with ⟨rfl, rfl⟩ | ⟨rfl, rfl⟩ | ⟨rfl, rfl⟩ <;>
    simp [parseSize, hlast, hdrop, hdot, hpi, hbound] <;> omega

/-- C1: the claim says `parse` terminates normally for every input and never
raises or aborts, silently skipping malformed lines.  The code violates this:
on `c1Line` (bracket token `-1.5`) the float path reaches
`@intFromFloat(u64, -1.5)`, whose integer part is negative, a Zig
safety-checked panic that kills the process — modelled here as `parse`
returning `none` instead of a region list. -/
theorem C1_parse_aborts_on_negative_decimal : parse c1Line = none := by decide

/-- C2 (counterexample): the claim asserts the scenario line parses to a
Region with `virtual_size = 11216076`; the code does not produce that
Region. -/
theorem C2_counterexample : parse c2Line ≠ some [c2ClaimRegion] := by decide

/-- C2 (amended): the scenario line parses to exactly one Region with
category `__TEXT`, the stated addresses, permissions, sharing mode and
detail, but `virtual_size = 11219763` — `10.7 × 1024 × 1024 = 11219763.2`
truncated — not 11216076. -/
theorem C2_scenario_line : parse c2Line = some [c2Region] := by decide

/-- C3 (counterexample): the claim asserts every Region returned by `parse`
has `start_address < end_address`; the descending-range line `a 2-1 [...]`
parses to a Region with start 2 and end 1. -/
theorem C3_counterexample :
    parse c3LineDesc = some [c3RegionDesc] ∧
      ¬ c3RegionDesc.start_addr < c3RegionDesc.end_addr :=
  ⟨by decide, by decide⟩

/-- C3 (amended): `parse` copies the two parsed hex values into the Region
without any ordering validation — an ascending range yields start below end
and a descending range yields start above end. -/
theorem C3_no_order_validation :
    parse c3LineAsc = some [c3RegionAsc]
  ∧ c3RegionAsc.start_addr < c3RegionAsc.end_addr
  ∧ parse c3LineDesc = some [c3RegionDesc]
  ∧ c3RegionDesc.end_addr < c3RegionDesc.start_addr :=
  ⟨by decide, by decide, by decide, by decide⟩

/-- C4: the claim (and the spec's error taxonomy) says a spawn failure in
`start()` leaves the collector idle and restartable.  The code stores
`running := true` before the fallible `Thread.spawn` and never rolls it
back: after a failed spawn the running flag is true with no thread, and a
subsequent `start()` (even with a working spawn) is a silent no-op that
leaves the state unchanged. -/
theorem C4_start_failure_leaves_running :
    (Collector.start Collector.init .fail).1.running = true
  ∧ (Collector.start Collector.init .fail).1.thread = none
  ∧ Collector.start (Collector.start Collector.init .fail).1 .ok
      = ((Collector.start Collector.init .fail).1, .returned) := by decide

/-- C5 (counterexample): the claim asserts `parseSize` truncates every
token's magnitude to an integer byte count; on the token `-1.5` the code
instead hits the `@intFromFloat` safety panic. -/
theorem C5_counterexample : parseSize (chars "-1.5") = .abort := by decide

/-- C5 (amended): the P2 examples hold — `512K`, `0K`, bare `824`, and
`10.7M` giving `10.7 × 1024 × 1024` truncated (`107·2^20/10 = 11219763`) —
and on any all-digit token a `K`/`M`/`G` suffix multiplies the raw-byte
value by the matching power of 1024 whenever the product fits in `u64`;
out-of-range or negative magnitudes panic instead of erroring. -/
theorem C5_size_units :
    parseSize (chars "512K") = .ok 524288
  ∧ parseSize (chars "0K") = .ok 0
  ∧ parseSize (chars "824") = .ok 824
  ∧ parseSize (chars "10.7M") = .ok 11219763
  ∧ 11219763 = 107 * (1024 * 1024) / 10
  ∧ (∀ tok v, tok ≠ [] → (∀ c ∈ tok, c.isDigit) → parseSize tok = .ok v →
      parseIntU64 10 tok = some v
      ∧ (v * 1024 < 2 ^ 64 → parseSize (tok ++ ['K']) = .ok (v * 1024))
      ∧ (v * (1024 * 1024) < 2 ^ 64 →
          parseSize (tok ++ ['M']) = .ok (v * (1024 * 1024)))
      ∧ (v * (1024 * 1024 * 1024) < 2 ^ 64 →
          parseSize (tok ++ ['G']) = .ok (v * (1024 * 1024 * 1024)))) := by
  refine ⟨by decide, by decide, by decide, by decide, by decide, ?_⟩
  intro tok v hne hd hok
  obtain ⟨hpi, _⟩ := parseSize_digits tok v hne hd hok
  exact ⟨hpi,
    fun hb => parseSize_suffix tok v 'K' 1024 hd hpi (Or.inl ⟨rfl, rfl⟩) hb,
    fun hb => parseSize_suffix tok v 'M' (1024 * 1024) hd hpi
      (Or.inr (Or.inl ⟨rfl, rfl⟩)) hb,
    fun hb => parseSize_suffix tok v 'G' (1024 * 1024 * 1024) hd hpi
      (Or.inr (Or.inr ⟨rfl, rfl⟩)) hb⟩

/-- C5 (witness): the suffix law of `C5_size_units` applied to the concrete
token `824`. -/
theorem C5_witness : parseSize (chars "824" ++ ['K']) = .ok (824 * 1024) :=
  ((C5_size_units.2.2.2.2.2) (chars "824") 824 (by decide) (by decide)
    (by decide)).2.1 (by decide)

/-- C6: the claim says a region line whose bracket section has fewer than
four tokens or a token with no numeric content is discarded whole while
parsing continues.  That holds when the bad token is reached (first
conjunct: the `x` line is dropped and the following line still parses), but
the code violates the claim when an earlier bracket token like `-1.5`
panics before the digit-free token is even examined (second conjunct: the
whole parse dies and the following good line is lost). -/
theorem C6_bad_token_line :
    parse c6GoodText = some [c6Region] ∧ parse c6BadText = none :=
  ⟨by decide, by decide⟩

/-- C7: for every line, the parsed category is exactly the text before the
address-range anchor, trimmed of spaces; the returned anchor is the first
position where a hex-digit run immediately followed by `-` and a hex digit
starts (no earlier position anchors); and the `MALLOC guard page` line
concretely yields that multi-word category. -/
theorem C7_category_before_anchor :
    (∀ line p r, findAddressStart line = some p → parseRegionLine line = .ok r →
        r.region_type = trimSpaces (line.take p))
  ∧ (∀ line p, findAddressStart line = some p →
        anchorHere (line.drop p) = true ∧
          ∀ q, q < p → anchorHere (line.drop q) = false)
  ∧ parseRegionLine c7Line = .ok c7Region
  ∧ c7Region.region_type = chars "MALLOC guard page" := by
  refine ⟨?_, ?_, by decide, by decide⟩
  · intro line p r hfa hok
    obtain ⟨p2, rest3, hfa2, _, hty, _, _⟩ := parseRegionLine_ok_shape line r hok
    rw [hfa] at hfa2
    injection hfa2 with e
    subst e
    exact hty
  · intro line p hfa
    obtain ⟨_, h2, h3⟩ := findAddrAux_spec line 0 p hfa
    refine ⟨by simpa using h2, ?_⟩
    intro q hq
    simpa using h3 q (Nat.zero_le q) hq

/-- C7 (witness): the general category law applied to the concrete
`MALLOC guard page` line, whose anchor is at index 20. -/
theorem C7_witness : c7Region.region_type = trimSpaces (c7Line.take 20) :=
  C7_category_before_anchor.1 c7Line 20 c7Region (by decide) (by decide)

/-- C8: whenever the per-cycle clock readings are monotonically
non-decreasing (the OS clock assumption the spec itself states), the
timestamps of the snapshots produced by the collection loop are
monotonically non-decreasing in capture order: every earlier snapshot's
timestamp is at most every later one's. -/
theorem C8_timestamps_monotone (cycles : List CycleRes)
    (hclock : (cycles.filterMap cycleTime).Pairwise (· ≤ ·)) :
    ((collectRun cycles).map Snapshot.timestamp_ms).Pairwise (· ≤ ·) :=
  List.Pairwise.sublist (collectRun_times_sublist cycles) hclock

/-- C8 (witness): the monotonicity law applied to four concrete cycles with
clock readings 5, 5, 7 and one failed cycle. -/
theorem C8_witness :
    ((collectRun c8Cycles).map Snapshot.timestamp_ms).Pairwise (· ≤ ·) :=
  C8_timestamps_monotone c8Cycles (by decide)

/-- C9: the Timeline fold keys identity by (type, start, end): over two
snapshots holding regions of equal type, a differing end address or a
differing start address produces two distinct tracked regions, each with its
own first/last-seen index, while identical coordinates and type only update
the existing entry's last-seen index. -/
theorem C9_identity_policy (r1 r2 : RegionTS) (t1 t2 : Int)
    (hty : r1.type = r2.type) :
    (r1.start ≠ r2.start ∨ r1.end_ ≠ r2.end_ →
      tracked [⟨t1, [r1]⟩, ⟨t2, [r2]⟩] = [mkTracked r1 0, mkTracked r2 1])
  ∧ (r1.start = r2.start ∧ r1.end_ = r2.end_ →
      tracked [⟨t1, [r1]⟩, ⟨t2, [r2]⟩] =
        [{ mkTracked r1 0 with lastSnapshot := 1 }]) := by
  constructor
  · intro hne
    have hkne : regionKey r1 ≠ regionKey r2 := by
      intro h
      obtain ⟨hs, he⟩ := regionKey_inj r1 r2 hty h
      rcases hne with h1 | h2
      · exact h1 hs
      · exact h2 he
    have hk : (regionKey r1 == regionKey r2) = false :=
      beq_eq_false_iff_ne.mpr hkne
    simp [tracked, List.enum, List.enumFrom, trackedInsert, hasKey, mkTracked, hk]
  · rintro ⟨hst, hend⟩
    have hk : regionKey r2 = regionKey r1 := by
      rw [regionKey, regionKey, hty, hst, hend]
    simp [tracked, List.enum, List.enumFrom, trackedInsert, hasKey, updateLast,
      mkTracked, hk]

/-- C9 (witness): the identity law applied to two concrete `__TEXT` region
pairs, one differing in end address and one differing in start address. -/
theorem C9_witness :
    tracked [⟨0, [c9R1]⟩, ⟨0, [c9R2]⟩] = [mkTracked c9R1 0, mkTracked c9R2 1]
  ∧ tracked [⟨0, [c9R1]⟩, ⟨0, [c9R3]⟩] = [mkTracked c9R1 0, mkTracked c9R3 1] :=
  ⟨(C9_identity_policy c9R1 c9R2 0 0 rfl).1 (by decide),
   (C9_identity_policy c9R1 c9R3 0 0 rfl).1 (by decide)⟩

/-- C10: for every successfully parsed region line with no sharing-mode
marker anywhere in the text after the closing bracket, the Region's detail
is absent — whatever trailing free text the line carries — and the sharing
mode defaults to private. -/
theorem C10_no_marker_detail (line : List Char) (r : Region)
    (hok : parseRegionLine line = .ok r)
    (hnm : ∀ m ∈ smMarkers, ¬ appearsIn m ((restAfterBracket line).getD [])) :
    r.detail = none ∧ r.sharing_mode = .PRV := by
  obtain ⟨p, rest3, hfa, hrest, hty, hsm, hdet⟩ := parseRegionLine_ok_shape line r hok
  rw [hrest] at hnm
  simp only [Option.getD_some] at hnm
  exact ⟨hdet.trans (parseDetail_no_marker rest3 hnm),
    hsm.trans (parseSharingMode_no_marker rest3 hnm)⟩

/-- C10 (witness): the detail/sharing default applied to the concrete line
with trailing text `hello world` and no marker. -/
theorem C10_witness : c10Region.detail = none ∧ c10Region.sharing_mode = .PRV :=
  C10_no_marker_detail c10Line c10Region (by decide)
    (by
      intro m hm
      simp only [smMarkers, List.mem_cons, List.not_mem_nil, or_false] at hm
      rcases hm with rfl | rfl | rfl | rfl | rfl | rfl <;>
        exact (indexOfSeq_none_iff _ _).mp (by decide))
